import Mathlib

/-!
Verification of fetchssh.

Shallow embedding of `fetchssh.go` (package `main`): target normalisation,
the per-algorithm probe loop with its host-key callback, and the final
fatal check.  Go strings are modelled as lists of characters; every
function used below only inspects the ASCII characters `:`, `[`, `]`, `,`
and white space, so the byte view and the character view agree.
-/

namespace FetchSSH

/-- Go `string` (and `[]byte` printed with `%s`). -/
abbrev GoString := List Char

/-- Go `error` values, identified by their text. -/
structure GoError where
  text : GoString
deriving DecidableEq, Repr

/-- The sentinel `var handshakeErr = errors.New("handshake error")`. -/
def handshakeErr : GoError := ⟨"handshake error".toList⟩

/-! ## Library string functions -/

/-- Index of the first occurrence of byte `c` in `s`, `-1` when absent
(`strings.Index(s, ":")`, `bytealg.IndexByteString`). -/
def indexByte : GoString → Char → Int
  | [], _ => -1
  | x :: xs, c =>
    if x = c then 0
    else
      let r := indexByte xs c
      if r < 0 then -1 else r + 1

/-- Index of the last occurrence of byte `c` in `s`, `-1` when absent
(`bytealg.LastIndexByteString`). -/
def lastIndexByte : GoString → Char → Int
  | [], _ => -1
  | x :: xs, c =>
    let r := lastIndexByte xs c
    if 0 ≤ r then r + 1
    else if x = c then 0 else -1

/-- Go slice expression `s[a:b]`. -/
def slice (s : GoString) (a b : Nat) : GoString := (s.drop a).take (b - a)

/-- Go slice expression `s[a:]`. -/
def sliceFrom (s : GoString) (a : Nat) : GoString := s.drop a

/-- The function `strings.Split(s, sep)` for a one-byte separator: the
pieces of `s` between occurrences of `sep`; never empty. -/
def stringsSplit : GoString → Char → List GoString
  | [], _ => [[]]
  | x :: xs, sep =>
    if x = sep then [] :: stringsSplit xs sep
    else
      match stringsSplit xs sep with
      | [] => [[x]]
      | piece :: rest => (x :: piece) :: rest

/-- The predicate `unicode.IsSpace`. -/
def isSpace (c : Char) : Bool :=
  let n := c.toNat
  n = 0x09 || n = 0x0A || n = 0x0B || n = 0x0C || n = 0x0D || n = 0x20 ||
  n = 0x85 || n = 0xA0 || n = 0x1680 || (0x2000 ≤ n && n ≤ 0x200A) ||
  n = 0x2028 || n = 0x2029 || n = 0x202F || n = 0x205F || n = 0x3000

/-- The function `bytes.TrimSpace`: leading and trailing white space removed. -/
def trimSpace (s : GoString) : GoString :=
  ((s.dropWhile isSpace).reverse.dropWhile isSpace).reverse

/-! ## `net.SplitHostPort` -/

/-- The error type `net.AddrError`. -/
structure AddrError where
  err : GoString
  addr : GoString
deriving DecidableEq, Repr

def missingPort : GoString := "missing port in address".toList

def tooManyColons : GoString := "too many colons in address".toList

/-- The tail of `net.SplitHostPort`, after `host`, `j` and `k` are set:
no `[` from position `j`, no `]` from position `k`, the port is what
follows the last colon at `i`. -/
def splitHostPortTail (hostport host : GoString) (i j k : Nat) :
    Except AddrError (GoString × GoString) :=
  if 0 ≤ indexByte (sliceFrom hostport j) '[' then
    .error ⟨"unexpected '[' in address".toList, hostport⟩
  else if 0 ≤ indexByte (sliceFrom hostport k) ']' then
    .error ⟨"unexpected ']' in address".toList, hostport⟩
  else
    .ok (host, sliceFrom hostport (i + 1))

/-- The function `net.SplitHostPort` of the Go standard library. -/
def splitHostPort (hostport : GoString) : Except AddrError (GoString × GoString) :=
  let i := lastIndexByte hostport ':'
  if i < 0 then .error ⟨missingPort, hostport⟩
  else if hostport.head? = some '[' then
    let endIdx := indexByte hostport ']'
    if endIdx < 0 then .error ⟨"missing ']' in address".toList, hostport⟩
    else if endIdx + 1 = hostport.length then .error ⟨missingPort, hostport⟩
    else if endIdx + 1 = i then
      splitHostPortTail hostport (slice hostport 1 endIdx.toNat) i.toNat 1 (endIdx.toNat + 1)
    else if hostport.get? (endIdx.toNat + 1) = some ':' then
      .error ⟨tooManyColons, hostport⟩
    else .error ⟨missingPort, hostport⟩
  else
    let host := slice hostport 0 i.toNat
    if 0 ≤ indexByte host ':' then .error ⟨tooManyColons, hostport⟩
    else splitHostPortTail hostport host i.toNat 0 0

/-- Lines 54-56 of `main`: the default port is appended when the target
holds no colon. -/
def normalizeTarget (dst : GoString) : GoString :=
  if indexByte dst ':' < 0 then dst ++ ":22".toList else dst

/-! ## The SSH library as seen by `main` -/

/-- The functions of `golang.org/x/crypto/ssh` and `encoding/json` that the
host-key callback calls, over an abstract type of public keys and of
certificates. -/
structure SSHLib (Key Cert : Type) where
  /-- The function `ssh.FingerprintSHA256`. -/
  fingerprintSHA256 : Key → GoString
  /-- The function `ssh.FingerprintLegacyMD5`. -/
  fingerprintLegacyMD5 : Key → GoString
  /-- The function `ssh.MarshalAuthorizedKey`. -/
  marshalAuthorizedKey : Key → GoString
  /-- The type assertion `key.(*ssh.Certificate)`. -/
  asCertificate : Key → Option Cert
  /-- The call `json.MarshalIndent(cert, "", "  ")`. -/
  marshalIndent : Cert → Except GoError GoString

/-- A Go `map[string]V`, kept as its list of entries in insertion order. -/
structure GoMap (V : Type) where
  entries : List (GoString × V)

namespace GoMap

/-- The expression `make(map[string]V)`. -/
def empty {V : Type} : GoMap V := ⟨[]⟩

def lookupEntries {V : Type} : List (GoString × V) → GoString → Option V
  | [], _ => none
  | (k, v) :: rest, key => if k = key then some v else lookupEntries rest key

def storeEntries {V : Type} : List (GoString × V) → GoString → V → List (GoString × V)
  | [], key, val => [(key, val)]
  | (k, v) :: rest, key, val =>
    if k = key then (k, val) :: rest else (k, v) :: storeEntries rest key val

/-- The expression `v, ok := m[key]`. -/
def lookup {V : Type} (m : GoMap V) (key : GoString) : Option V := lookupEntries m.entries key

/-- The statement `m[key] = val`. -/
def store {V : Type} (m : GoMap V) (key : GoString) (val : V) : GoMap V :=
  ⟨storeEntries m.entries key val⟩

/-- The expression `len(m)`. -/
def len {V : Type} (m : GoMap V) : Nat := m.entries.length

end GoMap

/-- The arguments of one `ssh.Dial` call that `main` chooses: the network,
the address and `config.HostKeyAlgorithms` (`config.Auth` is always empty). -/
structure DialRequest where
  network : GoString
  addr : GoString
  hostKeyAlgorithms : List GoString
deriving DecidableEq, Repr

/-- The variables of `main` that the probe loop updates, the text written
to standard output, and the trace of `ssh.Dial` calls made so far. -/
structure State (Key : Type) where
  seenKeys : GoMap Key
  collectedErrors : List GoError
  didHandshake : Bool
  stdout : GoString
  dials : List DialRequest

/-- The state when the loop is entered. -/
def State.init {Key : Type} : State Key :=
  { seenKeys := GoMap.empty, collectedErrors := [], didHandshake := false,
    stdout := [], dials := [] }

/-- The effect of `fmt.Printf` / `fmt.Println` with the formatted `text`. -/
def State.print {Key : Type} (st : State Key) (text : GoString) : State Key :=
  { st with stdout := st.stdout ++ text }

/-- How a call of the host-key callback ends. -/
inductive CallbackResult where
  | returned (err : Option GoError)
  | panicked (v : GoError)
deriving DecidableEq, Repr

/-- The closure `HostKeyCallback` of lines 73-98. -/
def hostKeyCallback {Key Cert : Type} (lib : SSHLib Key Cert)
    (_hostname _remote : GoString) (key : Key) (st : State Key) :
    State Key × CallbackResult :=
  let st := { st with didHandshake := true }
  let fp := lib.fingerprintSHA256 key
  match st.seenKeys.lookup fp with
  | some _ => (st, .returned (some handshakeErr))
  | none =>
    let st := { st with seenKeys := st.seenKeys.store fp key }
    let st := st.print ("key: ".toList ++ trimSpace (lib.marshalAuthorizedKey key) ++ "\n".toList)
    let st := st.print ("sha256: ".toList ++ lib.fingerprintSHA256 key ++ "\n".toList)
    let st := st.print ("md5: ".toList ++ lib.fingerprintLegacyMD5 key ++ "\n".toList)
    match lib.asCertificate key with
    | some cert =>
      match lib.marshalIndent cert with
      | .error err => (st, .panicked err)
      | .ok certJson =>
        let st := st.print ("cert: ".toList ++ certJson ++ "\n".toList)
        (st.print "\n".toList, .returned (some handshakeErr))
    | none => (st.print "\n".toList, .returned (some handshakeErr))

/-! ## The network -/

/-- What the server does in one dial, before any authentication: it offers
a host key (the callback fires with it), or the dial fails without a host
key, or the dial succeeds without the callback being called. -/
inductive Outcome (Key : Type) where
  | keyOffered (key : Key)
  | dialError (err : GoError)
  | dialSuccess

/-- The environment of a run: the outcome of the dial with a given ordinal
and request, the remote address handed to the callback, and the result of
the authentication phase that follows an accepted host key. -/
structure World (Key : Type) where
  outcome : Nat → DialRequest → Outcome Key
  remoteAddr : DialRequest → GoString
  authenticate : Nat → DialRequest → Option GoError

/-- The type `*ssh.Client`: the connection opened by the dial with this
ordinal. -/
structure Client where
  conn : Nat
deriving DecidableEq, Repr

/-- How a call of `ssh.Dial` ends. -/
inductive DialResult where
  | returned (client : Option Client) (err : Option GoError)
  | panicked (v : GoError)
deriving DecidableEq, Repr

/-- The function `ssh.Dial(network, addr, config)` against the world `w`:
the call is recorded, and a host key offered by the server goes through
`config.HostKeyCallback`; an error of the callback fails the handshake, an
accepted key lets the handshake go on to authentication. -/
def sshDial {Key : Type} (w : World Key) (req : DialRequest)
    (callback : GoString → GoString → Key → State Key → State Key × CallbackResult)
    (st : State Key) : State Key × DialResult :=
  let n := st.dials.length
  let st := { st with dials := st.dials ++ [req] }
  match w.outcome n req with
  | .dialError err => (st, .returned none (some err))
  | .dialSuccess => (st, .returned (some ⟨n⟩) none)
  | .keyOffered key =>
    match callback req.addr (w.remoteAddr req) key st with
    | (st, .panicked v) => (st, .panicked v)
    | (st, .returned (some e)) =>
      (st, .returned none (some ⟨"ssh: handshake failed: ".toList ++ e.text⟩))
    | (st, .returned none) =>
      match w.authenticate n req with
      | some e => (st, .returned none (some ⟨"ssh: handshake failed: ".toList ++ e.text⟩))
      | none => (st, .returned (some ⟨n⟩) none)

/-! ## `main` -/

/-- The request of the probe of `alg`: line 101 with the config of lines 70-72. -/
def probeRequest (host port alg : GoString) : DialRequest :=
  { network := "tcp".toList, addr := host ++ ":".toList ++ port, hostKeyAlgorithms := [alg] }

/-- One iteration of the loop of lines 68-110; the second component is the
value of a panic that ended the iteration. -/
def probe {Key Cert : Type} (lib : SSHLib Key Cert) (w : World Key)
    (host port alg : GoString) (st : State Key) : State Key × Option GoError :=
  let st := { st with didHandshake := false }
  match sshDial w (probeRequest host port alg) (hostKeyCallback lib) st with
  | (st, .panicked v) => (st, some v)
  | (st, .returned _client err) =>
    if st.didHandshake then (st, none)
    else
      match err with
      | some e => ({ st with collectedErrors := st.collectedErrors ++ [e] }, none)
      | none => (st, none)

/-- The loop of lines 68-110 over `algsList`. -/
def probeLoop {Key Cert : Type} (lib : SSHLib Key Cert) (w : World Key)
    (host port : GoString) : List GoString → State Key → State Key × Option GoError
  | [], st => (st, none)
  | alg :: rest, st =>
    match probe lib w host port alg st with
    | (st, some v) => (st, some v)
    | (st, none) => probeLoop lib w host port rest st

/-- How the process ends. -/
inductive Exit where
  | success
  | fatalUsage
  | fatalParse (dst : GoString) (err : AddrError)
  | fatalNoKeys (collectedErrors : List GoError)
  | panic (v : GoError)
deriving DecidableEq, Repr

/-- The end of a run: how it exited and the last state of its variables. -/
structure Result (Key : Type) where
  exit : Exit
  state : State Key

/-- The function `main`, on the positional arguments `args` and the value
`algorithms` of the flag `-algorithms`. -/
def main {Key Cert : Type} (lib : SSHLib Key Cert) (w : World Key)
    (args : List GoString) (algorithms : GoString) : Result Key :=
  match args with
  | [] => ⟨.fatalUsage, State.init⟩
  | arg0 :: _ =>
    let dst := normalizeTarget arg0
    match splitHostPort dst with
    | .error err => ⟨.fatalParse dst err, State.init⟩
    | .ok (host, port) =>
      let algsList := stringsSplit algorithms ','
      match probeLoop lib w host port algsList State.init with
      | (st, some v) => ⟨.panic v, st⟩
      | (st, none) =>
        if st.seenKeys.len = 0 then ⟨.fatalNoKeys st.collectedErrors, st⟩
        else ⟨.success, st⟩

/-! ## Vocabulary of the specification -/

/-- The outcomes of the probes of `algs` at `host:port`, the first of them
being dial number `n`. -/
def outcomesFrom {Key : Type} (w : World Key) (host port : GoString) :
    Nat → List GoString → List (Outcome Key)
  | _, [] => []
  | n, alg :: rest =>
    w.outcome n (probeRequest host port alg) :: outcomesFrom w host port (n + 1) rest

/-- The keys offered, in probe order. -/
def offeredKeys {Key : Type} : List (Outcome Key) → List Key
  | [] => []
  | .keyOffered key :: rest => key :: offeredKeys rest
  | _ :: rest => offeredKeys rest

/-- The errors of the dials in which no key was received, in probe order. -/
def dialErrors {Key : Type} : List (Outcome Key) → List GoError
  | [] => []
  | .dialError err :: rest => err :: dialErrors rest
  | _ :: rest => dialErrors rest

/-- The keys of `keys` whose fingerprint is neither in `seen` nor that of
an earlier key of `keys`. -/
def newCaptures {Key : Type} (fp : Key → GoString) : List GoString → List Key → List Key
  | _, [] => []
  | seen, key :: rest =>
    if fp key ∈ seen then newCaptures fp seen rest
    else key :: newCaptures fp (fp key :: seen) rest

/-- The first key of each fingerprint, in order of first occurrence. -/
def firstCaptures {Key : Type} (fp : Key → GoString) (keys : List Key) : List Key :=
  newCaptures fp [] keys

/-- The `cert:` line of a key: present exactly for a certificate. -/
def certLine {Key Cert : Type} (lib : SSHLib Key Cert) (key : Key) : GoString :=
  match lib.asCertificate key with
  | none => []
  | some cert =>
    match lib.marshalIndent cert with
    | .ok certJson => "cert: ".toList ++ certJson ++ "\n".toList
    | .error _ => []

/-- The block of text reported for one captured key. -/
def keyBlock {Key Cert : Type} (lib : SSHLib Key Cert) (key : Key) : GoString :=
  "key: ".toList ++ trimSpace (lib.marshalAuthorizedKey key) ++ "\n".toList ++
  ("sha256: ".toList ++ lib.fingerprintSHA256 key ++ "\n".toList) ++
  ("md5: ".toList ++ lib.fingerprintLegacyMD5 key ++ "\n".toList) ++
  certLine lib key ++ "\n".toList

/-- The call `json.MarshalIndent` fails on no certificate. -/
def MarshalTotal {Key Cert : Type} (lib : SSHLib Key Cert) : Prop :=
  ∀ cert, ∃ certJson, lib.marshalIndent cert = .ok certJson

/-- The text reported for a list of captured keys. -/
def report {Key Cert : Type} (lib : SSHLib Key Cert) (keys : List Key) : GoString :=
  (keys.map (keyBlock lib)).flatten

/-- The outcomes of the probes of a run, in probe order. -/
def runOutcomes {Key : Type} (w : World Key) (host port algorithms : GoString) :
    List (Outcome Key) :=
  outcomesFrom w host port 0 (stringsSplit algorithms ',')

/-- The keys offered in a run, in probe order. -/
def offered {Key : Type} (w : World Key) (host port algorithms : GoString) : List Key :=
  offeredKeys (runOutcomes w host port algorithms)

/-- The ProbeErrors of the specification: for each failing probe, in probe
order, the algorithm probed paired with the error of its dial. -/
def probeErrorsFrom {Key : Type} (w : World Key) (host port : GoString) :
    Nat → List GoString → List (GoString × GoError)
  | _, [] => []
  | n, alg :: rest =>
    match w.outcome n (probeRequest host port alg) with
    | .dialError err => (alg, err) :: probeErrorsFrom w host port (n + 1) rest
    | _ => probeErrorsFrom w host port (n + 1) rest

/-! ## A concrete library and world, for evaluation -/

/-- A toy public key: its wire text and whether it is a certificate. -/
structure DemoKey where
  blob : GoString
  isCert : Bool
deriving DecidableEq, Repr

/-- A toy library: fingerprints are tagged copies of the wire text. -/
def demoLib : SSHLib DemoKey GoString where
  fingerprintSHA256 k := "SHA256:".toList ++ k.blob
  fingerprintLegacyMD5 k := "md5-".toList ++ k.blob
  marshalAuthorizedKey k := "ssh-demo ".toList ++ k.blob ++ "\n".toList
  asCertificate k := if k.isCert then some k.blob else none
  marshalIndent c := .ok ("\x7b\x7d".toList ++ c)

def demoKeyA : DemoKey := ⟨"AAAA".toList, false⟩

def demoCertB : DemoKey := ⟨"BBBB".toList, true⟩

def demoErr : GoError := ⟨"ssh: no common algorithm".toList⟩

/-- A server that offers `demoKeyA` for `type-A` and `type-A2`, the
certificate `demoCertB` for `cert-B`, accepts `open` without a host key,
and fails every other algorithm with the same error. -/
def demoWorld : World DemoKey where
  outcome _ req :=
    if req.hostKeyAlgorithms = ["type-A".toList] then .keyOffered demoKeyA
    else if req.hostKeyAlgorithms = ["type-A2".toList] then .keyOffered demoKeyA
    else if req.hostKeyAlgorithms = ["cert-B".toList] then .keyOffered demoCertB
    else if req.hostKeyAlgorithms = ["open".toList] then .dialSuccess
    else .dialError demoErr
  remoteAddr req := req.addr
  authenticate _ _ := none

/-! ## Lemmas on the map -/

theorem lookupEntries_eq_none_iff {V : Type} (es : List (GoString × V)) (f : GoString) :
    GoMap.lookupEntries es f = none ↔ f ∉ es.map Prod.fst := by
  induction es with
  | nil => simp [GoMap.lookupEntries]
  | cons e rest ih =>
    obtain ⟨k, v⟩ := e
    by_cases hk : k = f
    · subst hk
      simp only [GoMap.lookupEntries, if_true, List.map_cons, List.mem_cons, true_or,
        not_true_eq_false, iff_false]
      exact fun h => Option.noConfusion h
    · have hk2 : ¬ f = k := fun h => hk h.symm
      simp only [GoMap.lookupEntries, if_neg hk, List.map_cons, List.mem_cons, hk2, false_or]
      exact ih

theorem storeEntries_of_not_mem {V : Type} (es : List (GoString × V)) (f : GoString) (v : V)
    (h : f ∉ es.map Prod.fst) : GoMap.storeEntries es f v = es ++ [(f, v)] := by
  induction es with
  | nil => simp [GoMap.storeEntries]
  | cons e rest ih =>
    obtain ⟨k, v2⟩ := e
    simp only [List.map_cons, List.mem_cons, not_or] at h
    have hk : ¬ k = f := fun hkf => h.1 hkf.symm
    simp [GoMap.storeEntries, hk, ih h.2]

/-! ## One probe -/

theorem probe_dialError {Key Cert : Type} (lib : SSHLib Key Cert) (w : World Key)
    (host port alg : GoString) (st : State Key) (e : GoError)
    (h : w.outcome st.dials.length (probeRequest host port alg) = .dialError e) :
    probe lib w host port alg st =
      ({ seenKeys := st.seenKeys, collectedErrors := st.collectedErrors ++ [e],
         didHandshake := false, stdout := st.stdout,
         dials := st.dials ++ [probeRequest host port alg] }, none) := by
  simp [probe, sshDial, h]

theorem probe_dialSuccess {Key Cert : Type} (lib : SSHLib Key Cert) (w : World Key)
    (host port alg : GoString) (st : State Key)
    (h : w.outcome st.dials.length (probeRequest host port alg) = .dialSuccess) :
    probe lib w host port alg st =
      ({ seenKeys := st.seenKeys, collectedErrors := st.collectedErrors,
         didHandshake := false, stdout := st.stdout,
         dials := st.dials ++ [probeRequest host port alg] }, none) := by
  simp [probe, sshDial, h]

theorem probe_keyOffered_seen {Key Cert : Type} (lib : SSHLib Key Cert) (w : World Key)
    (host port alg : GoString) (st : State Key) (key : Key)
    (h : w.outcome st.dials.length (probeRequest host port alg) = .keyOffered key)
    (hseen : lib.fingerprintSHA256 key ∈ st.seenKeys.entries.map Prod.fst) :
    probe lib w host port alg st =
      ({ seenKeys := st.seenKeys, collectedErrors := st.collectedErrors,
         didHandshake := true, stdout := st.stdout,
         dials := st.dials ++ [probeRequest host port alg] }, none) := by
  have hl : GoMap.lookupEntries st.seenKeys.entries (lib.fingerprintSHA256 key) ≠ none := by
    rw [Ne, lookupEntries_eq_none_iff]; exact fun hn => hn hseen
  obtain ⟨v, hv⟩ := Option.ne_none_iff_exists'.mp hl
  simp [probe, sshDial, h, hostKeyCallback, GoMap.lookup, hv]

theorem probe_keyOffered_new {Key Cert : Type} (lib : SSHLib Key Cert) (w : World Key)
    (hJson : MarshalTotal lib)
    (host port alg : GoString) (st : State Key) (key : Key)
    (h : w.outcome st.dials.length (probeRequest host port alg) = .keyOffered key)
    (hnew : lib.fingerprintSHA256 key ∉ st.seenKeys.entries.map Prod.fst) :
    probe lib w host port alg st =
      ({ seenKeys := ⟨st.seenKeys.entries ++ [(lib.fingerprintSHA256 key, key)]⟩,
         collectedErrors := st.collectedErrors,
         didHandshake := true, stdout := st.stdout ++ keyBlock lib key,
         dials := st.dials ++ [probeRequest host port alg] }, none) := by
  have hl : GoMap.lookupEntries st.seenKeys.entries (lib.fingerprintSHA256 key) = none :=
    (lookupEntries_eq_none_iff _ _).mpr hnew
  have hs := storeEntries_of_not_mem st.seenKeys.entries (lib.fingerprintSHA256 key) key hnew
  cases hc : lib.asCertificate key with
  | none =>
    simp [probe, sshDial, h, hostKeyCallback, GoMap.lookup, hl, GoMap.store, hs, hc,
      State.print, keyBlock, certLine]
  | some cert =>
    obtain ⟨j, hj⟩ := hJson cert
    simp [probe, sshDial, h, hostKeyCallback, GoMap.lookup, hl, GoMap.store, hs, hc, hj,
      State.print, keyBlock, certLine]

/-! ## First captures -/

theorem newCaptures_congr {Key : Type} (fp : Key → GoString) (keys : List Key) :
    ∀ s1 s2 : List GoString, (∀ x, x ∈ s1 ↔ x ∈ s2) →
      newCaptures fp s1 keys = newCaptures fp s2 keys := by
  induction keys with
  | nil => intro s1 s2 _; rfl
  | cons k rest ih =>
    intro s1 s2 h
    by_cases hk : fp k ∈ s1
    · have hk2 : fp k ∈ s2 := (h _).mp hk
      simp only [newCaptures, if_pos hk, if_pos hk2]
      exact ih s1 s2 h
    · have hk2 : fp k ∉ s2 := fun h2 => hk ((h _).mpr h2)
      simp only [newCaptures, if_neg hk, if_neg hk2]
      rw [ih (fp k :: s1) (fp k :: s2)]
      intro x
      simp only [List.mem_cons, h x]

theorem mem_map_newCaptures {Key : Type} (fp : Key → GoString) (keys : List Key) :
    ∀ (seen : List GoString) (f : GoString),
      f ∈ (newCaptures fp seen keys).map fp ↔ f ∉ seen ∧ f ∈ keys.map fp := by
  induction keys with
  | nil => intro seen f; simp [newCaptures]
  | cons k rest ih =>
    intro seen f
    by_cases hk : fp k ∈ seen
    · simp only [newCaptures, if_pos hk, ih, List.map_cons, List.mem_cons]
      constructor
      · rintro ⟨h1, h2⟩; exact ⟨h1, Or.inr h2⟩
      · rintro ⟨h1, h2 | h2⟩
        · exact absurd (h2 ▸ hk) h1
        · exact ⟨h1, h2⟩
    · simp only [newCaptures, if_neg hk, List.map_cons, List.mem_cons, ih, not_or]
      constructor
      · rintro (h | ⟨⟨h1, h2⟩, h3⟩)
        · exact ⟨h ▸ hk, Or.inl h⟩
        · exact ⟨h2, Or.inr h3⟩
      · rintro ⟨h1, h2 | h2⟩
        · exact Or.inl h2
        · by_cases hf : f = fp k
          · exact Or.inl hf
          · exact Or.inr ⟨⟨hf, h1⟩, h2⟩

theorem newCaptures_nodup {Key : Type} (fp : Key → GoString) (keys : List Key) :
    ∀ seen : List GoString, ((newCaptures fp seen keys).map fp).Nodup := by
  induction keys with
  | nil => intro seen; simp [newCaptures]
  | cons k rest ih =>
    intro seen
    by_cases hk : fp k ∈ seen
    · simp only [newCaptures, if_pos hk]; exact ih seen
    · simp only [newCaptures, if_neg hk, List.map_cons, List.nodup_cons]
      refine ⟨?_, ih _⟩
      rw [mem_map_newCaptures]
      simp

theorem find?_newCaptures {Key : Type} (fp : Key → GoString) (keys : List Key) :
    ∀ (seen : List GoString) (f : GoString), f ∉ seen →
      (newCaptures fp seen keys).find? (fun k => decide (fp k = f)) =
        keys.find? (fun k => decide (fp k = f)) := by
  induction keys with
  | nil => intro seen f _; rfl
  | cons k rest ih =>
    intro seen f hf
    by_cases hk : fp k ∈ seen
    · have hne : ¬ fp k = f := fun h => hf (h ▸ hk)
      simp only [newCaptures, if_pos hk, List.find?_cons, hne, decide_False]
      exact ih seen f hf
    · simp only [newCaptures, if_neg hk, List.find?_cons]
      by_cases hkf : fp k = f
      · simp [hkf]
      · simp only [hkf, decide_False]
        apply ih
        simp only [List.mem_cons, not_or]
        exact ⟨fun h => hkf h.symm, hf⟩

/-! ## The probe loop -/

theorem probeLoop_spec {Key Cert : Type} (lib : SSHLib Key Cert) (w : World Key)
    (hJson : MarshalTotal lib) (host port : GoString) :
    ∀ (algs : List GoString) (st : State Key),
      ∃ st2, probeLoop lib w host port algs st = (st2, none) ∧
        st2.seenKeys.entries = st.seenKeys.entries ++
          (newCaptures lib.fingerprintSHA256 (st.seenKeys.entries.map Prod.fst)
            (offeredKeys (outcomesFrom w host port st.dials.length algs))).map
              (fun k => (lib.fingerprintSHA256 k, k)) ∧
        st2.collectedErrors = st.collectedErrors ++
          dialErrors (outcomesFrom w host port st.dials.length algs) ∧
        st2.stdout = st.stdout ++
          report lib (newCaptures lib.fingerprintSHA256 (st.seenKeys.entries.map Prod.fst)
            (offeredKeys (outcomesFrom w host port st.dials.length algs))) ∧
        st2.dials = st.dials ++ algs.map (probeRequest host port) := by
  intro algs
  induction algs with
  | nil =>
    intro st
    exact ⟨st, rfl, by simp [outcomesFrom, offeredKeys, newCaptures],
      by simp [outcomesFrom, dialErrors],
      by simp [outcomesFrom, offeredKeys, newCaptures, report], by simp⟩
  | cons alg rest ih =>
    intro st
    cases ho : w.outcome st.dials.length (probeRequest host port alg) with
    | dialError e =>
      obtain ⟨st2, h1, h2, h3, h4, h5⟩ := ih
        { seenKeys := st.seenKeys, collectedErrors := st.collectedErrors ++ [e],
          didHandshake := false, stdout := st.stdout,
          dials := st.dials ++ [probeRequest host port alg] }
      refine ⟨st2, ?_, ?_, ?_, ?_, ?_⟩
      · simp only [probeLoop, probe_dialError lib w host port alg st e ho]; exact h1
      · simpa [outcomesFrom, ho, offeredKeys] using h2
      · simpa [outcomesFrom, ho, dialErrors] using h3
      · simpa [outcomesFrom, ho, offeredKeys] using h4
      · simpa using h5
    | dialSuccess =>
      obtain ⟨st2, h1, h2, h3, h4, h5⟩ := ih
        { seenKeys := st.seenKeys, collectedErrors := st.collectedErrors,
          didHandshake := false, stdout := st.stdout,
          dials := st.dials ++ [probeRequest host port alg] }
      refine ⟨st2, ?_, ?_, ?_, ?_, ?_⟩
      · simp only [probeLoop, probe_dialSuccess lib w host port alg st ho]; exact h1
      · simpa [outcomesFrom, ho, offeredKeys] using h2
      · simpa [outcomesFrom, ho, dialErrors] using h3
      · simpa [outcomesFrom, ho, offeredKeys] using h4
      · simpa using h5
    | keyOffered key =>
      by_cases hseen : lib.fingerprintSHA256 key ∈ st.seenKeys.entries.map Prod.fst
      · obtain ⟨st2, h1, h2, h3, h4, h5⟩ := ih
          { seenKeys := st.seenKeys, collectedErrors := st.collectedErrors,
            didHandshake := true, stdout := st.stdout,
            dials := st.dials ++ [probeRequest host port alg] }
        refine ⟨st2, ?_, ?_, ?_, ?_, ?_⟩
        · simp only [probeLoop, probe_keyOffered_seen lib w host port alg st key ho hseen]
          exact h1
        · simpa [outcomesFrom, ho, offeredKeys, newCaptures, hseen] using h2
        · simpa [outcomesFrom, ho, dialErrors] using h3
        · simpa [outcomesFrom, ho, offeredKeys, newCaptures, hseen] using h4
        · simpa using h5
      · obtain ⟨st2, h1, h2, h3, h4, h5⟩ := ih
          { seenKeys := ⟨st.seenKeys.entries ++ [(lib.fingerprintSHA256 key, key)]⟩,
            collectedErrors := st.collectedErrors,
            didHandshake := true, stdout := st.stdout ++ keyBlock lib key,
            dials := st.dials ++ [probeRequest host port alg] }
        have hc : ∀ keys, newCaptures lib.fingerprintSHA256
            ((st.seenKeys.entries ++ [(lib.fingerprintSHA256 key, key)]).map Prod.fst) keys =
            newCaptures lib.fingerprintSHA256
              (lib.fingerprintSHA256 key :: st.seenKeys.entries.map Prod.fst) keys := by
          intro keys
          apply newCaptures_congr
          intro x
          simp only [List.map_append, List.map_cons, List.map_nil, List.mem_append,
            List.mem_cons, List.not_mem_nil, or_false]
          exact or_comm
        simp only [hc, List.length_append, List.length_singleton] at h2 h4
        simp only [List.length_append, List.length_singleton] at h3
        refine ⟨st2, ?_, ?_, ?_, ?_, ?_⟩
        · simp only [probeLoop,
            probe_keyOffered_new lib w hJson host port alg st key ho hseen]
          exact h1
        · simp only [outcomesFrom, ho, offeredKeys, newCaptures, if_neg hseen, List.map_cons]
          rw [h2]; simp
        · simpa [outcomesFrom, ho, dialErrors] using h3
        · simp only [outcomesFrom, ho, offeredKeys, newCaptures, if_neg hseen, report,
            List.map_cons, List.flatten_cons]
          rw [h4]; simp [report]
        · simpa using h5

/-! ## The whole run -/

theorem main_spec {Key Cert : Type} (lib : SSHLib Key Cert) (w : World Key)
    (hJson : MarshalTotal lib) (target : GoString) (rest : List GoString)
    (algorithms host port : GoString)
    (hparse : splitHostPort (normalizeTarget target) = .ok (host, port)) :
    ∃ st : State Key,
      main lib w (target :: rest) algorithms =
        ⟨if st.seenKeys.len = 0 then .fatalNoKeys st.collectedErrors else .success, st⟩ ∧
      st.seenKeys.entries =
        (firstCaptures lib.fingerprintSHA256 (offered w host port algorithms)).map
          (fun k => (lib.fingerprintSHA256 k, k)) ∧
      st.collectedErrors = dialErrors (runOutcomes w host port algorithms) ∧
      st.stdout =
        report lib (firstCaptures lib.fingerprintSHA256 (offered w host port algorithms)) ∧
      st.dials = (stringsSplit algorithms ',').map (probeRequest host port) := by
  obtain ⟨st, h1, h2, h3, h4, h5⟩ :=
    probeLoop_spec lib w hJson host port (stringsSplit algorithms ',') State.init
  refine ⟨st, ?_, ?_, ?_, ?_, ?_⟩
  · simp only [main, hparse, h1]
    split <;> rfl
  · simpa [State.init, GoMap.empty, firstCaptures, offered, runOutcomes] using h2
  · simpa [State.init, runOutcomes] using h3
  · simpa [State.init, GoMap.empty, firstCaptures, offered, runOutcomes] using h4
  · simpa [State.init] using h5

theorem lookupEntries_map {Key : Type} (fp : Key → GoString) (f : GoString) (keys : List Key) :
    GoMap.lookupEntries (keys.map (fun k => (fp k, k))) f =
      keys.find? (fun k => decide (fp k = f)) := by
  induction keys with
  | nil => rfl
  | cons k rest ih =>
    by_cases hk : fp k = f
    · simp [GoMap.lookupEntries, hk]
    · simp only [List.map_cons, GoMap.lookupEntries, if_neg hk, List.find?_cons, hk,
        decide_False]
      exact ih

theorem filter_entries_length {Key : Type} (fp : Key → GoString) (f : GoString)
    (keys : List Key) (hnd : (keys.map fp).Nodup) :
    ((keys.map (fun k => (fp k, k))).filter (fun e => decide (e.1 = f))).length =
      if f ∈ keys.map fp then 1 else 0 := by
  induction keys with
  | nil => rfl
  | cons k rest ih =>
    simp only [List.map_cons, List.nodup_cons] at hnd
    have ih2 := ih hnd.2
    by_cases hk : fp k = f
    · have hnot : f ∉ rest.map fp := hk ▸ hnd.1
      rw [if_neg hnot] at ih2
      simp [List.filter_cons, hk, ih2]
    · have hk2 : ¬ f = fp k := fun h => hk h.symm
      simp only [List.map_cons, List.filter_cons, hk, decide_False, List.mem_cons, hk2,
        false_or]
      exact ih2

theorem demoLib_marshalTotal : MarshalTotal demoLib := fun _ => ⟨_, rfl⟩

theorem firstCaptures_length {Key : Type} (fp : Key → GoString) (keys : List Key) :
    (firstCaptures fp keys).length = (keys.map fp).toFinset.card := by
  have hnd := newCaptures_nodup fp keys []
  have hmem : ∀ f, f ∈ (newCaptures fp [] keys).map fp ↔ f ∈ keys.map fp := by
    intro f
    have hm := mem_map_newCaptures fp keys [] f
    simpa only [List.not_mem_nil, not_false_eq_true, true_and] using hm
  have h1 := List.toFinset_card_of_nodup hnd
  rw [List.length_map] at h1
  rw [← List.toFinset.ext hmem]
  exact h1.symm

/-- C1. After a run whose target parses, the KeySet `seenKeys` holds, for
every fingerprint `f`, exactly one entry when some probe offered a key of
fingerprint `f` and none otherwise, and the value stored under `f` is the
key of the first probe, in list order, that offered that fingerprint; so
two algorithms that present the same key give one entry, and the KeySet
has as many entries as there are distinct fingerprints offered. -/
theorem seenKeys_one_entry_per_fingerprint {Key Cert : Type} (lib : SSHLib Key Cert)
    (w : World Key) (hJson : MarshalTotal lib) (target : GoString) (rest : List GoString)
    (algorithms host port : GoString)
    (hparse : splitHostPort (normalizeTarget target) = .ok (host, port)) (f : GoString) :
    (((main lib w (target :: rest) algorithms).state.seenKeys.entries.filter
        (fun e => decide (e.1 = f))).length =
      if f ∈ (offered w host port algorithms).map lib.fingerprintSHA256 then 1 else 0) ∧
    (main lib w (target :: rest) algorithms).state.seenKeys.lookup f =
      (offered w host port algorithms).find?
        (fun k => decide (lib.fingerprintSHA256 k = f)) ∧
    (main lib w (target :: rest) algorithms).state.seenKeys.len =
      ((offered w host port algorithms).map lib.fingerprintSHA256).toFinset.card := by
  obtain ⟨st, hmain, hkeys, -, -, -⟩ :=
    main_spec lib w hJson target rest algorithms host port hparse
  rw [hmain]
  refine ⟨?_, ?_, ?_⟩
  · show ((st.seenKeys.entries.filter (fun e => decide (e.1 = f))).length = _)
    rw [hkeys]
    unfold firstCaptures
    rw [filter_entries_length _ _ _ (newCaptures_nodup lib.fingerprintSHA256 _ [])]
    have hm := mem_map_newCaptures lib.fingerprintSHA256 (offered w host port algorithms) [] f
    simp only [List.not_mem_nil, not_false_eq_true, true_and] at hm
    simp only [hm]
  · show GoMap.lookupEntries st.seenKeys.entries f = _
    rw [hkeys, lookupEntries_map]
    exact find?_newCaptures lib.fingerprintSHA256 _ [] f (List.not_mem_nil f)
  · show st.seenKeys.entries.length = _
    rw [hkeys, List.length_map]
    exact firstCaptures_length lib.fingerprintSHA256 _

theorem seenKeys_one_entry_per_fingerprint_witness :
    MarshalTotal demoLib ∧
    splitHostPort (normalizeTarget "example.com".toList) =
      .ok ("example.com".toList, "22".toList) ∧
    ((((main demoLib demoWorld ["example.com".toList]
          "type-A,type-A2".toList).state.seenKeys.entries.filter
        (fun e => decide (e.1 = "SHA256:AAAA".toList))).length =
      if "SHA256:AAAA".toList ∈
          (offered demoWorld "example.com".toList "22".toList "type-A,type-A2".toList).map
            demoLib.fingerprintSHA256 then 1 else 0) ∧
    (main demoLib demoWorld ["example.com".toList]
        "type-A,type-A2".toList).state.seenKeys.lookup "SHA256:AAAA".toList =
      (offered demoWorld "example.com".toList "22".toList "type-A,type-A2".toList).find?
        (fun k => decide (demoLib.fingerprintSHA256 k = "SHA256:AAAA".toList)) ∧
    (main demoLib demoWorld ["example.com".toList]
        "type-A,type-A2".toList).state.seenKeys.len =
      ((offered demoWorld "example.com".toList "22".toList "type-A,type-A2".toList).map
        demoLib.fingerprintSHA256).toFinset.card) ∧
    offered demoWorld "example.com".toList "22".toList "type-A,type-A2".toList =
      [demoKeyA, demoKeyA] ∧
    (main demoLib demoWorld ["example.com".toList]
        "type-A,type-A2".toList).state.seenKeys.entries =
      [("SHA256:AAAA".toList, demoKeyA)] :=
  ⟨demoLib_marshalTotal, rfl,
    seenKeys_one_entry_per_fingerprint demoLib demoWorld demoLib_marshalTotal
      "example.com".toList [] "type-A,type-A2".toList "example.com".toList "22".toList rfl
      "SHA256:AAAA".toList, rfl, rfl⟩

theorem newCaptures_sublist {Key : Type} (fp : Key → GoString) (keys : List Key) :
    ∀ seen : List GoString, (newCaptures fp seen keys).Sublist keys := by
  induction keys with
  | nil => intro seen; exact List.Sublist.slnil
  | cons k rest ih =>
    intro seen
    by_cases hk : fp k ∈ seen
    · simp only [newCaptures, if_pos hk]; exact List.Sublist.cons k (ih seen)
    · simp only [newCaptures, if_neg hk]; exact List.Sublist.cons₂ k (ih _)

theorem find?_of_mem_nodup {Key : Type} (fp : Key → GoString) (keys : List Key)
    (hnd : (keys.map fp).Nodup) (k : Key) (hk : k ∈ keys) :
    keys.find? (fun k2 => decide (fp k2 = fp k)) = some k := by
  induction keys with
  | nil => cases hk
  | cons x rest ih =>
    simp only [List.map_cons, List.nodup_cons] at hnd
    rcases List.mem_cons.mp hk with h | h
    · subst h; simp
    · have hne : ¬ fp x = fp k := fun he => hnd.1 (he ▸ List.mem_map_of_mem fp h)
      simp only [List.find?_cons, hne, decide_False]
      exact ih hnd.2 h

/-- C2. After a run whose target parses, the text on standard output is
the concatenation of one block per first capture: the first captures are
the offered keys with every key of an already offered fingerprint removed
(a sublist of the offered keys in probe order, with pairwise distinct
fingerprints, covering every offered fingerprint, each the first offered
key of its fingerprint, as many as there are distinct fingerprints), and a
block is the `key:`, `sha256:` and `md5:` lines, then a `cert:` line with
the indented JSON exactly when the key is a certificate, then an empty
line. -/
theorem stdout_is_blocks_of_first_captures {Key Cert : Type} (lib : SSHLib Key Cert)
    (w : World Key) (hJson : MarshalTotal lib) (target : GoString) (rest : List GoString)
    (algorithms host port : GoString)
    (hparse : splitHostPort (normalizeTarget target) = .ok (host, port)) :
    (main lib w (target :: rest) algorithms).state.stdout =
      ((firstCaptures lib.fingerprintSHA256 (offered w host port algorithms)).map
        (keyBlock lib)).flatten ∧
    (firstCaptures lib.fingerprintSHA256 (offered w host port algorithms)).Sublist
      (offered w host port algorithms) ∧
    ((firstCaptures lib.fingerprintSHA256 (offered w host port algorithms)).map
      lib.fingerprintSHA256).Nodup ∧
    (∀ f, f ∈ (firstCaptures lib.fingerprintSHA256 (offered w host port algorithms)).map
        lib.fingerprintSHA256 ↔
      f ∈ (offered w host port algorithms).map lib.fingerprintSHA256) ∧
    (∀ k, k ∈ firstCaptures lib.fingerprintSHA256 (offered w host port algorithms) →
      (offered w host port algorithms).find?
        (fun k2 => decide (lib.fingerprintSHA256 k2 = lib.fingerprintSHA256 k)) = some k) ∧
    (firstCaptures lib.fingerprintSHA256 (offered w host port algorithms)).length =
      ((offered w host port algorithms).map lib.fingerprintSHA256).toFinset.card ∧
    (∀ key, lib.asCertificate key = none →
      keyBlock lib key =
        "key: ".toList ++ trimSpace (lib.marshalAuthorizedKey key) ++ "\n".toList ++
        ("sha256: ".toList ++ lib.fingerprintSHA256 key ++ "\n".toList) ++
        ("md5: ".toList ++ lib.fingerprintLegacyMD5 key ++ "\n".toList) ++ "\n".toList) ∧
    (∀ key cert, lib.asCertificate key = some cert →
      ∃ certJson, lib.marshalIndent cert = .ok certJson ∧
      keyBlock lib key =
        "key: ".toList ++ trimSpace (lib.marshalAuthorizedKey key) ++ "\n".toList ++
        ("sha256: ".toList ++ lib.fingerprintSHA256 key ++ "\n".toList) ++
        ("md5: ".toList ++ lib.fingerprintLegacyMD5 key ++ "\n".toList) ++
        ("cert: ".toList ++ certJson ++ "\n".toList) ++ "\n".toList) := by
  obtain ⟨st, hmain, -, -, hout, -⟩ :=
    main_spec lib w hJson target rest algorithms host port hparse
  have hmem : ∀ f, f ∈ (firstCaptures lib.fingerprintSHA256
      (offered w host port algorithms)).map lib.fingerprintSHA256 ↔
      f ∈ (offered w host port algorithms).map lib.fingerprintSHA256 := by
    intro f
    have hm := mem_map_newCaptures lib.fingerprintSHA256 (offered w host port algorithms) [] f
    simpa only [List.not_mem_nil, not_false_eq_true, true_and] using hm
  have hnd := newCaptures_nodup lib.fingerprintSHA256 (offered w host port algorithms) []
  refine ⟨?_, newCaptures_sublist _ _ [], hnd, hmem, ?_, ?_, ?_, ?_⟩
  · rw [hmain]; exact hout
  · intro k hk
    have h1 := find?_newCaptures lib.fingerprintSHA256 (offered w host port algorithms) []
      (lib.fingerprintSHA256 k) (List.not_mem_nil _)
    rw [← h1]
    exact find?_of_mem_nodup lib.fingerprintSHA256 _ hnd k hk
  · exact firstCaptures_length lib.fingerprintSHA256 _
  · intro key hc
    simp [keyBlock, certLine, hc]
  · intro key cert hc
    obtain ⟨j, hj⟩ := hJson cert
    exact ⟨j, hj, by simp [keyBlock, certLine, hc, hj]⟩

theorem stdout_is_blocks_of_first_captures_witness :
    MarshalTotal demoLib ∧
    splitHostPort (normalizeTarget "example.com".toList) =
      .ok ("example.com".toList, "22".toList) ∧
    (main demoLib demoWorld ["example.com".toList]
        "type-A,type-B,cert-B,type-A2".toList).state.stdout =
      ((firstCaptures demoLib.fingerprintSHA256
          (offered demoWorld "example.com".toList "22".toList
            "type-A,type-B,cert-B,type-A2".toList)).map (keyBlock demoLib)).flatten ∧
    (main demoLib demoWorld ["example.com".toList]
        "type-A,type-B,cert-B,type-A2".toList).state.stdout =
      ("key: ssh-demo AAAA\nsha256: SHA256:AAAA\nmd5: md5-AAAA\n\n" ++
       "key: ssh-demo BBBB\nsha256: SHA256:BBBB\nmd5: md5-BBBB\ncert: \x7b\x7dBBBB\n\n").toList :=
  ⟨demoLib_marshalTotal, rfl,
    (stdout_is_blocks_of_first_captures demoLib demoWorld demoLib_marshalTotal
      "example.com".toList [] "type-A,type-B,cert-B,type-A2".toList "example.com".toList
      "22".toList rfl).1, rfl⟩

/-- C3. The host-key callback never accepts: for every hostname, remote
address, key and state, a call that returns gives the sentinel
`handshakeErr` (never nil), the only other way out being the panic on a
JSON failure; and a dial in which the server offers a key never yields a
client, whatever the authentication phase would have answered. -/
theorem hostKeyCallback_always_rejects {Key Cert : Type} (lib : SSHLib Key Cert)
    (hostname remote : GoString) (key : Key) (st : State Key) :
    (hostKeyCallback lib hostname remote key st).2 ≠ .returned none ∧
    (∀ r, (hostKeyCallback lib hostname remote key st).2 = .returned r →
      r = some handshakeErr) ∧
    ((hostKeyCallback lib hostname remote key st).2 = .returned (some handshakeErr) ∨
      ∃ v, (hostKeyCallback lib hostname remote key st).2 = .panicked v) ∧
    (hostKeyCallback lib hostname remote key st).1.didHandshake = true ∧
    (∀ (w : World Key) (req : DialRequest),
      w.outcome st.dials.length req = .keyOffered key →
      ∀ client err, (sshDial w req (hostKeyCallback lib) st).2 ≠
        .returned (some client) err) := by
  have hcases : ∀ (h r : GoString) (s : State Key),
      (hostKeyCallback lib h r key s).2 = .returned (some handshakeErr) ∨
      ∃ v, (hostKeyCallback lib h r key s).2 = .panicked v := by
    intro h r s
    unfold hostKeyCallback
    simp only
    split
    · exact Or.inl rfl
    · split
      · split
        · exact Or.inr ⟨_, rfl⟩
        · exact Or.inl rfl
      · exact Or.inl rfl
  have hflag : (hostKeyCallback lib hostname remote key st).1.didHandshake = true := by
    unfold hostKeyCallback
    simp only
    split
    · rfl
    · split
      · split <;> rfl
      · rfl
  refine ⟨?_, ?_, hcases hostname remote st, hflag, ?_⟩
  · rcases hcases hostname remote st with h | ⟨v, h⟩ <;> rw [h] <;> simp
  · intro r hr
    rcases hcases hostname remote st with h | ⟨v, h⟩
    · rw [h] at hr; injection hr with hr; exact hr.symm
    · rw [h] at hr; cases hr
  · intro w req ho client err
    simp only [sshDial, ho]
    rcases hcases req.addr (w.remoteAddr req)
      { st with dials := st.dials ++ [req] } with h | ⟨v, h⟩
    · generalize hostKeyCallback lib req.addr (w.remoteAddr req) key
        { st with dials := st.dials ++ [req] } = res at h
      obtain ⟨s2, r2⟩ := res
      simp only at h
      subst h
      simp
    · generalize hostKeyCallback lib req.addr (w.remoteAddr req) key
        { st with dials := st.dials ++ [req] } = res at h
      obtain ⟨s2, r2⟩ := res
      simp only at h
      subst h
      simp

theorem hostKeyCallback_always_rejects_witness :
    (hostKeyCallback demoLib "example.com:22".toList "192.0.2.1:22".toList demoCertB
        State.init).2 = .returned (some handshakeErr) ∧
    (∀ r, (hostKeyCallback demoLib "example.com:22".toList "192.0.2.1:22".toList demoCertB
        State.init).2 = .returned r → r = some handshakeErr) :=
  ⟨rfl, (hostKeyCallback_always_rejects demoLib "example.com:22".toList
    "192.0.2.1:22".toList demoCertB State.init).2.1⟩

/-- C4. A probe whose dial fails without the callback firing appends
exactly the dial error at the end of the collected errors and leaves the
KeySet and the printed output as they were; it ends without a panic and
with the key-received marker unset. -/
theorem failed_probe_records_error_only {Key Cert : Type} (lib : SSHLib Key Cert)
    (w : World Key) (host port alg : GoString) (st : State Key) (e : GoError)
    (h : w.outcome st.dials.length (probeRequest host port alg) = .dialError e) :
    (probe lib w host port alg st).2 = none ∧
    (probe lib w host port alg st).1.collectedErrors = st.collectedErrors ++ [e] ∧
    (probe lib w host port alg st).1.seenKeys = st.seenKeys ∧
    (probe lib w host port alg st).1.stdout = st.stdout ∧
    (probe lib w host port alg st).1.didHandshake = false := by
  rw [probe_dialError lib w host port alg st e h]
  exact ⟨rfl, rfl, rfl, rfl, rfl⟩

theorem failed_probe_records_error_only_witness :
    demoWorld.outcome (State.init : State DemoKey).dials.length
        (probeRequest "example.com".toList "22".toList "type-B".toList) =
      .dialError demoErr ∧
    (probe demoLib demoWorld "example.com".toList "22".toList "type-B".toList
        State.init).1.collectedErrors = [] ++ [demoErr] :=
  ⟨rfl, (failed_probe_records_error_only demoLib demoWorld "example.com".toList
    "22".toList "type-B".toList State.init demoErr rfl).2.1⟩

theorem hostKeyCallback_returns {Key Cert : Type} (lib : SSHLib Key Cert)
    (hJson : MarshalTotal lib) (hostname remote : GoString) (key : Key) (st : State Key) :
    (hostKeyCallback lib hostname remote key st).2 = .returned (some handshakeErr) := by
  unfold hostKeyCallback
  simp only
  split
  · rfl
  · split
    · rename_i cert _
      obtain ⟨j, hj⟩ := hJson cert
      simp [hj]
    · rfl

theorem probe_keyOffered_errors {Key Cert : Type} (lib : SSHLib Key Cert) (w : World Key)
    (hJson : MarshalTotal lib) (host port alg : GoString) (st : State Key) (key : Key)
    (h : w.outcome st.dials.length (probeRequest host port alg) = .keyOffered key) :
    (probe lib w host port alg st).1.collectedErrors = st.collectedErrors ∧
    (probe lib w host port alg st).1.didHandshake = true := by
  by_cases hseen : lib.fingerprintSHA256 key ∈ st.seenKeys.entries.map Prod.fst
  · rw [probe_keyOffered_seen lib w host port alg st key h hseen]
    exact ⟨rfl, rfl⟩
  · rw [probe_keyOffered_new lib w hJson host port alg st key h hseen]
    exact ⟨rfl, rfl⟩

theorem sshDial_keyOffered {Key Cert : Type} (lib : SSHLib Key Cert) (w : World Key)
    (hJson : MarshalTotal lib) (req : DialRequest) (st : State Key) (key : Key)
    (h : w.outcome st.dials.length req = .keyOffered key) :
    (sshDial w req (hostKeyCallback lib) st).2 =
      .returned none (some ⟨"ssh: handshake failed: ".toList ++ handshakeErr.text⟩) := by
  simp only [sshDial, h]
  have hr := hostKeyCallback_returns lib hJson req.addr (w.remoteAddr req) key
    { st with dials := st.dials ++ [req] }
  generalize hostKeyCallback lib req.addr (w.remoteAddr req) key
    { st with dials := st.dials ++ [req] } = res at hr
  obtain ⟨s2, r2⟩ := res
  simp only at hr
  subst hr
  rfl

/-- C5. After a run whose target parses, the collected errors are exactly
the errors of the dials in which no key was received, in probe order; a
probe in which the server offers a key (new or already in the KeySet) sets
the key-received marker, and the error that its dial returns because of
the rejection is not added to the collected errors. -/
theorem collected_errors_are_keyless_dial_errors {Key Cert : Type} (lib : SSHLib Key Cert)
    (w : World Key) (hJson : MarshalTotal lib) (target : GoString) (rest : List GoString)
    (algorithms host port : GoString)
    (hparse : splitHostPort (normalizeTarget target) = .ok (host, port)) :
    (main lib w (target :: rest) algorithms).state.collectedErrors =
      dialErrors (runOutcomes w host port algorithms) ∧
    (∀ (alg : GoString) (st : State Key) (key : Key),
      w.outcome st.dials.length (probeRequest host port alg) = .keyOffered key →
      (∃ e, (sshDial w (probeRequest host port alg) (hostKeyCallback lib)
          { st with didHandshake := false }).2 = .returned none (some e)) ∧
      (probe lib w host port alg st).1.didHandshake = true ∧
      (probe lib w host port alg st).1.collectedErrors = st.collectedErrors) := by
  obtain ⟨st, hmain, -, herr, -, -⟩ :=
    main_spec lib w hJson target rest algorithms host port hparse
  refine ⟨by rw [hmain]; exact herr, ?_⟩
  intro alg st2 key ho
  have hp := probe_keyOffered_errors lib w hJson host port alg st2 key ho
  exact ⟨⟨_, sshDial_keyOffered lib w hJson (probeRequest host port alg)
    { st2 with didHandshake := false } key ho⟩, hp.2, hp.1⟩

theorem collected_errors_are_keyless_dial_errors_witness :
    MarshalTotal demoLib ∧
    splitHostPort (normalizeTarget "example.com".toList) =
      .ok ("example.com".toList, "22".toList) ∧
    (main demoLib demoWorld ["example.com".toList]
        "type-A,type-B,type-A2,open,type-C".toList).state.collectedErrors =
      dialErrors (runOutcomes demoWorld "example.com".toList "22".toList
        "type-A,type-B,type-A2,open,type-C".toList) ∧
    (main demoLib demoWorld ["example.com".toList]
        "type-A,type-B,type-A2,open,type-C".toList).state.collectedErrors =
      [demoErr, demoErr] :=
  ⟨demoLib_marshalTotal, rfl,
    (collected_errors_are_keyless_dial_errors demoLib demoWorld demoLib_marshalTotal
      "example.com".toList [] "type-A,type-B,type-A2,open,type-C".toList
      "example.com".toList "22".toList rfl).1, rfl⟩

theorem offeredKeys_eq_nil_iff {Key : Type} (outs : List (Outcome Key)) :
    offeredKeys outs = [] ↔ ∀ key, Outcome.keyOffered key ∉ outs := by
  induction outs with
  | nil => simp [offeredKeys]
  | cons o rest ih =>
    cases o with
    | keyOffered k =>
      simp only [offeredKeys, List.mem_cons, not_or]
      constructor
      · intro h; cases h
      · intro h; exact absurd rfl (h k).1
    | dialError e => simp [offeredKeys, ih]
    | dialSuccess => simp [offeredKeys, ih]

theorem firstCaptures_eq_nil_iff {Key : Type} (fp : Key → GoString) (keys : List Key) :
    firstCaptures fp keys = [] ↔ keys = [] := by
  cases keys with
  | nil => simp [firstCaptures, newCaptures]
  | cons k rest => simp [firstCaptures, newCaptures]

/-- C7. A run whose target parses ends in the fatal exit
`log.Fatalf("Failed to fetch keys: ...")`, which carries the whole list of
collected errors, exactly when the KeySet is empty after the probes, which
is exactly when no probe had a key offered; otherwise it ends successfully,
whatever errors were collected, and standard output holds the key blocks
only. -/
theorem fatal_iff_no_key_captured {Key Cert : Type} (lib : SSHLib Key Cert)
    (w : World Key) (hJson : MarshalTotal lib) (target : GoString) (rest : List GoString)
    (algorithms host port : GoString)
    (hparse : splitHostPort (normalizeTarget target) = .ok (host, port)) :
    ((main lib w (target :: rest) algorithms).exit =
        .fatalNoKeys (dialErrors (runOutcomes w host port algorithms)) ↔
      (main lib w (target :: rest) algorithms).state.seenKeys.len = 0) ∧
    ((main lib w (target :: rest) algorithms).state.seenKeys.len = 0 ↔
      ∀ key, Outcome.keyOffered key ∉ runOutcomes w host port algorithms) ∧
    (∀ errs, (main lib w (target :: rest) algorithms).exit = .fatalNoKeys errs →
      errs = (main lib w (target :: rest) algorithms).state.collectedErrors) ∧
    ((main lib w (target :: rest) algorithms).state.seenKeys.len ≠ 0 →
      (main lib w (target :: rest) algorithms).exit = .success ∧
      (main lib w (target :: rest) algorithms).state.stdout =
        report lib (firstCaptures lib.fingerprintSHA256 (offered w host port algorithms))) := by
  obtain ⟨st, hmain, hkeys, herr, hout, -⟩ :=
    main_spec lib w hJson target rest algorithms host port hparse
  rw [hmain]
  simp only
  refine ⟨?_, ?_, ?_, ?_⟩
  · by_cases h0 : st.seenKeys.len = 0
    · simp [h0, herr]
    · simp [h0]
  · rw [GoMap.len, hkeys, List.length_map, List.length_eq_zero, firstCaptures_eq_nil_iff,
      offered, offeredKeys_eq_nil_iff]
  · intro errs
    by_cases h0 : st.seenKeys.len = 0
    · simp only [h0, if_true]
      intro h; injection h with h; exact h.symm
    · simp only [h0, if_false]
      intro h; cases h
  · intro h0
    exact ⟨by simp [h0], hout⟩

theorem fatal_iff_no_key_captured_witness :
    MarshalTotal demoLib ∧
    splitHostPort (normalizeTarget "example.com".toList) =
      .ok ("example.com".toList, "22".toList) ∧
    ((main demoLib demoWorld ["example.com".toList] "type-B,type-C".toList).exit =
        .fatalNoKeys (dialErrors (runOutcomes demoWorld "example.com".toList "22".toList
          "type-B,type-C".toList)) ↔
      (main demoLib demoWorld ["example.com".toList]
        "type-B,type-C".toList).state.seenKeys.len = 0) ∧
    (main demoLib demoWorld ["example.com".toList] "type-B,type-C".toList).exit =
      .fatalNoKeys [demoErr, demoErr] ∧
    (main demoLib demoWorld ["example.com".toList] "type-B,type-A,type-C".toList).exit =
      .success :=
  ⟨demoLib_marshalTotal, rfl,
    (fatal_iff_no_key_captured demoLib demoWorld demoLib_marshalTotal
      "example.com".toList [] "type-B,type-C".toList "example.com".toList "22".toList rfl).1,
    rfl, rfl⟩

/-- C9. A run whose target parses makes exactly one dial per element of
the comma-split algorithm list, in list order, each to `host:port` over
tcp with `HostKeyAlgorithms` the one-element list of that algorithm,
whatever the outcomes of the probes; the run is not cut short. -/
theorem one_dial_per_algorithm_in_order {Key Cert : Type} (lib : SSHLib Key Cert)
    (w : World Key) (hJson : MarshalTotal lib) (target : GoString) (rest : List GoString)
    (algorithms host port : GoString)
    (hparse : splitHostPort (normalizeTarget target) = .ok (host, port)) :
    (main lib w (target :: rest) algorithms).state.dials =
      (stringsSplit algorithms ',').map (fun alg =>
        { network := "tcp".toList, addr := host ++ ":".toList ++ port,
          hostKeyAlgorithms := [alg] }) ∧
    (main lib w (target :: rest) algorithms).state.dials.length =
      (stringsSplit algorithms ',').length ∧
    ((main lib w (target :: rest) algorithms).exit = .success ∨
      (main lib w (target :: rest) algorithms).exit =
        .fatalNoKeys (main lib w (target :: rest) algorithms).state.collectedErrors) := by
  obtain ⟨st, hmain, -, -, -, hdials⟩ :=
    main_spec lib w hJson target rest algorithms host port hparse
  rw [hmain]
  simp only
  refine ⟨?_, ?_, ?_⟩
  · rw [hdials]; rfl
  · rw [hdials, List.length_map]
  · by_cases h0 : st.seenKeys.len = 0
    · right; simp [h0]
    · left; simp [h0]

theorem one_dial_per_algorithm_in_order_witness :
    MarshalTotal demoLib ∧
    splitHostPort (normalizeTarget "example.com".toList) =
      .ok ("example.com".toList, "22".toList) ∧
    (main demoLib demoWorld ["example.com".toList]
        "type-B,type-A,open,cert-B".toList).state.dials =
      (stringsSplit "type-B,type-A,open,cert-B".toList ',').map (fun alg =>
        { network := "tcp".toList, addr := "example.com".toList ++ ":".toList ++ "22".toList,
          hostKeyAlgorithms := [alg] }) ∧
    stringsSplit "type-B,type-A,open,cert-B".toList ',' =
      ["type-B".toList, "type-A".toList, "open".toList, "cert-B".toList] :=
  ⟨demoLib_marshalTotal, rfl,
    (one_dial_per_algorithm_in_order demoLib demoWorld demoLib_marshalTotal
      "example.com".toList [] "type-B,type-A,open,cert-B".toList "example.com".toList
      "22".toList rfl).1, rfl⟩

/-! ## Lemmas on byte search and `net.SplitHostPort` -/

theorem indexByte_neg_iff (s : GoString) (c : Char) : indexByte s c < 0 ↔ c ∉ s := by
  induction s with
  | nil => simp [indexByte]
  | cons x xs ih =>
    by_cases hx : x = c
    · simp [indexByte, hx]
    · have hx2 : ¬ c = x := fun h => hx h.symm
      simp only [indexByte, if_neg hx, List.mem_cons, hx2, false_or]
      by_cases hr : indexByte xs c < 0
      · simp only [if_pos hr]
        exact ⟨fun _ => ih.mp hr, fun _ => by omega⟩
      · simp only [if_neg hr]
        constructor
        · intro h; omega
        · intro h; exact absurd (ih.mpr h) hr

theorem indexByte_nonneg_iff (s : GoString) (c : Char) : 0 ≤ indexByte s c ↔ c ∈ s := by
  have h := indexByte_neg_iff s c
  constructor
  · intro h0
    by_contra hc
    have := h.mpr hc
    omega
  · intro hm
    by_contra hc
    exact (h.mp (by omega)) hm

theorem indexByte_lt_length (s : GoString) (c : Char) : indexByte s c < s.length := by
  induction s with
  | nil => simp [indexByte]
  | cons x xs ih =>
    by_cases hx : x = c
    · simp only [indexByte, if_pos hx, List.length_cons]; omega
    · simp only [indexByte, if_neg hx, List.length_cons]
      split <;> push_cast <;> omega

theorem lastIndexByte_neg_iff (s : GoString) (c : Char) : lastIndexByte s c < 0 ↔ c ∉ s := by
  induction s with
  | nil => simp [lastIndexByte]
  | cons x xs ih =>
    simp only [lastIndexByte, List.mem_cons, not_or]
    by_cases hr : 0 ≤ lastIndexByte xs c
    · simp only [if_pos hr]
      constructor
      · intro h; omega
      · rintro ⟨_, h⟩
        have := ih.mpr h
        omega
    · simp only [if_neg hr]
      have hxs : c ∉ xs := ih.mp (by omega)
      by_cases hx : x = c
      · simp [hx]
      · have hx2 : ¬ c = x := fun h => hx h.symm
        simp [hx, hx2, hxs]

theorem lastIndexByte_split (s : GoString) (c : Char) (h : 0 ≤ lastIndexByte s c) :
    s = s.take (lastIndexByte s c).toNat ++ c :: s.drop ((lastIndexByte s c).toNat + 1) := by
  induction s with
  | nil => simp [lastIndexByte] at h
  | cons x xs ih =>
    simp only [lastIndexByte] at h ⊢
    by_cases hr : 0 ≤ lastIndexByte xs c
    · simp only [if_pos hr]
      have e : (lastIndexByte xs c + 1).toNat = (lastIndexByte xs c).toNat + 1 := by omega
      rw [e, List.take_succ_cons, List.drop_succ_cons, List.cons_append]
      exact congrArg _ (ih hr)
    · simp only [if_neg hr] at h ⊢
      by_cases hx : x = c
      · simp [hx]
      · simp [hx] at h

theorem lastIndexByte_append_sep (host port : GoString) (c : Char) (hp : c ∉ port) :
    lastIndexByte (host ++ c :: port) c = host.length := by
  induction host with
  | nil =>
    have hr : ¬ 0 ≤ lastIndexByte port c := by
      have := (lastIndexByte_neg_iff port c).mpr hp
      omega
    simp [lastIndexByte, hr]
  | cons x xs ih =>
    show (if 0 ≤ lastIndexByte (xs ++ c :: port) c then lastIndexByte (xs ++ c :: port) c + 1
      else if x = c then 0 else -1) = _
    rw [ih]
    have h0 : (0 : Int) ≤ (xs.length : Int) := Int.ofNat_nonneg _
    simp only [if_pos h0, List.length_cons]
    push_cast
    rfl

theorem mem_take_lastIndexByte (s : GoString) (c : Char) (h : 2 ≤ s.count c) :
    c ∈ s.take (lastIndexByte s c).toNat := by
  induction s with
  | nil => simp at h
  | cons x xs ih =>
    simp only [lastIndexByte]
    by_cases hr : 0 ≤ lastIndexByte xs c
    · simp only [if_pos hr]
      have e : (lastIndexByte xs c + 1).toNat = (lastIndexByte xs c).toNat + 1 := by omega
      rw [e, List.take_succ_cons, List.mem_cons]
      by_cases hx : x = c
      · exact Or.inl hx.symm
      · right
        apply ih
        rw [List.count_cons] at h
        have hb : (x == c) = false := by simpa using hx
        simpa [hb] using h
    · have hxs : c ∉ xs := (lastIndexByte_neg_iff xs c).mp (by omega)
      have h0 : xs.count c = 0 := List.count_eq_zero.mpr hxs
      rw [List.count_cons, h0] at h
      split at h <;> omega

/-- In the branch for a host without brackets, a successful split cuts the
address at one colon: joining the parts with `:` gives the address back. -/
theorem splitHostPort_join (hostport host port : GoString)
    (hb : hostport.head? ≠ some '[')
    (h : splitHostPort hostport = .ok (host, port)) :
    host ++ ":".toList ++ port = hostport := by
  simp only [splitHostPort, if_neg hb] at h
  by_cases hi : lastIndexByte hostport ':' < 0
  · simp [hi] at h
  · simp only [if_neg hi] at h
    split at h
    · cases h
    · simp only [splitHostPortTail] at h
      split at h
      · cases h
      · split at h
        · cases h
        · injection h with h
          injection h with h1 h2
          have hs := lastIndexByte_split hostport ':' (by omega)
          rw [← h1, ← h2]
          simp only [slice, sliceFrom, List.drop_zero, Nat.sub_zero]
          conv_rhs => rw [hs]
          simp

/-- An address `host:port` whose parts hold no colon and no bracket splits
into these parts. -/
theorem splitHostPort_plain (host port : GoString)
    (hc : ':' ∉ host) (hl : '[' ∉ host) (hr : ']' ∉ host)
    (pc : ':' ∉ port) (pl : '[' ∉ port) (pr : ']' ∉ port) :
    splitHostPort (host ++ ':' :: port) = .ok (host, port) := by
  have hi := lastIndexByte_append_sep host port ':' pc
  have hhead : (host ++ ':' :: port).head? ≠ some '[' := by
    cases host with
    | nil => simp
    | cons x xs =>
      simp only [List.cons_append, List.head?_cons, ne_eq, Option.some.injEq]
      intro hx
      exact hl (hx ▸ List.mem_cons_self _ _)
  have htake : slice (host ++ ':' :: port) 0 host.length = host := by
    simp [slice]
  have hhost : ¬ 0 ≤ indexByte host ':' := by
    have := (indexByte_neg_iff host ':').mpr hc
    omega
  have hnl : ¬ 0 ≤ indexByte (host ++ ':' :: port) '[' := by
    have := (indexByte_neg_iff (host ++ ':' :: port) '[').mpr (by simp [hl, pl])
    omega
  have hnr : ¬ 0 ≤ indexByte (host ++ ':' :: port) ']' := by
    have := (indexByte_neg_iff (host ++ ':' :: port) ']').mpr (by simp [hr, pr])
    omega
  have hdrop : sliceFrom (host ++ ':' :: port) (host.length + 1) = port := by
    simp [sliceFrom]
  simp only [splitHostPort, hi, if_neg hhead, Int.toNat_ofNat, htake, if_neg hhost,
    splitHostPortTail, sliceFrom, List.drop_zero, if_neg hnl, if_neg hnr]
  simp only [sliceFrom] at hdrop
  simp [hdrop]

theorem splitHostPort_bare_colons (hostport : GoString)
    (hb : hostport.head? ≠ some '[') (h2 : 2 ≤ hostport.count ':') :
    splitHostPort hostport = .error ⟨tooManyColons, hostport⟩ := by
  have hm : ':' ∈ hostport := List.count_pos_iff.mp (by omega)
  have hi : ¬ lastIndexByte hostport ':' < 0 := fun h =>
    (lastIndexByte_neg_iff hostport ':').mp h hm
  have hhost : 0 ≤ indexByte (slice hostport 0 (lastIndexByte hostport ':').toNat) ':' := by
    rw [indexByte_nonneg_iff]
    simpa [slice] using mem_take_lastIndexByte hostport ':' h2
  simp only [splitHostPort, if_neg hi, if_neg hb, if_pos hhost]

theorem splitHostPort_bracketed_no_port (body : GoString) (hc : ':' ∈ body) :
    ∃ err, splitHostPort ('[' :: body ++ [']']) = .error err := by
  have hi : ¬ lastIndexByte ('[' :: body ++ [']']) ':' < 0 := fun h =>
    (lastIndexByte_neg_iff _ ':').mp h (by simp [hc])
  have hend : ¬ indexByte ('[' :: body ++ [']']) ']' < 0 := fun h =>
    (indexByte_neg_iff _ ']').mp h (by simp)
  have hlt := indexByte_lt_length ('[' :: body ++ [']']) ']'
  have hh : ('[' :: body ++ [']']).head? = some '[' := rfl
  simp only [splitHostPort, if_neg hi, if_pos hh, if_neg hend]
  by_cases h1 : indexByte ('[' :: body ++ [']']) ']' + 1 = (('[' :: body ++ [']']).length : Int)
  · rw [if_pos h1]; exact ⟨_, rfl⟩
  · rw [if_neg h1]
    by_cases h2 : indexByte ('[' :: body ++ [']']) ']' + 1 =
        lastIndexByte ('[' :: body ++ [']']) ':'
    · rw [if_pos h2]
      simp only [splitHostPortTail]
      by_cases h3 : 0 ≤ indexByte (sliceFrom ('[' :: body ++ [']']) 1) '['
      · rw [if_pos h3]; exact ⟨_, rfl⟩
      · rw [if_neg h3]
        have hk : (indexByte ('[' :: body ++ [']']) ']').toNat + 1 ≤ ('[' :: body).length := by
          have hl : (('[' :: body ++ [']']).length : Int) = (('[' :: body).length : Int) + 1 := by
            simp
          omega
        have hmem : ']' ∈ sliceFrom ('[' :: body ++ [']'])
            ((indexByte ('[' :: body ++ [']']) ']').toNat + 1) := by
          have e : '[' :: body ++ [']'] = ('[' :: body) ++ [']'] := rfl
          rw [sliceFrom, e, List.drop_append_of_le_length hk]
          simp
        rw [if_pos ((indexByte_nonneg_iff _ _).mpr hmem)]
        exact ⟨_, rfl⟩
    · rw [if_neg h2]
      by_cases h4 : ('[' :: body ++ [']']).get?
          ((indexByte ('[' :: body ++ [']']) ']').toNat + 1) = some ':'
      · rw [if_pos h4]; exact ⟨_, rfl⟩
      · rw [if_neg h4]; exact ⟨_, rfl⟩

theorem normalizeTarget_of_mem (target : GoString) (h : ':' ∈ target) :
    normalizeTarget target = target := by
  have hi : ¬ indexByte target ':' < 0 := fun hn => (indexByte_neg_iff target ':').mp hn h
  simp [normalizeTarget, hi]

theorem normalizeTarget_of_not_mem (target : GoString) (h : ':' ∉ target) :
    normalizeTarget target = target ++ ":22".toList := by
  simp [normalizeTarget, (indexByte_neg_iff target ':').mpr h]

theorem main_parse_error {Key Cert : Type} (lib : SSHLib Key Cert) (w : World Key)
    (target : GoString) (rest : List GoString) (algorithms : GoString) (err : AddrError)
    (h : splitHostPort (normalizeTarget target) = .error err) :
    main lib w (target :: rest) algorithms =
      ⟨.fatalParse (normalizeTarget target) err, State.init⟩ := by
  simp only [main, h]

theorem main_dials_addr {Key Cert : Type} (lib : SSHLib Key Cert) (w : World Key)
    (hJson : MarshalTotal lib) (target : GoString) (rest : List GoString)
    (algorithms : GoString) (hb : (normalizeTarget target).head? ≠ some '[') :
    ∀ d ∈ (main lib w (target :: rest) algorithms).state.dials,
      d.addr = normalizeTarget target := by
  intro d hd
  cases hs : splitHostPort (normalizeTarget target) with
  | error err =>
    rw [main_parse_error lib w target rest algorithms err hs] at hd
    simp [State.init] at hd
  | ok hp =>
    obtain ⟨host, port⟩ := hp
    obtain ⟨st, hmain, -, -, -, hdials⟩ :=
      main_spec lib w hJson target rest algorithms host port hs
    rw [hmain] at hd
    simp only [hdials, List.mem_map] at hd
    obtain ⟨alg, -, rfl⟩ := hd
    exact splitHostPort_join _ host port hb hs

theorem main_dials_plain {Key Cert : Type} (lib : SSHLib Key Cert) (w : World Key)
    (hJson : MarshalTotal lib) (target : GoString) (rest : List GoString)
    (algorithms host port : GoString) (ht : normalizeTarget target = host ++ ':' :: port)
    (hc : ':' ∉ host) (hl : '[' ∉ host) (hr : ']' ∉ host)
    (pc : ':' ∉ port) (pl : '[' ∉ port) (pr : ']' ∉ port) :
    (main lib w (target :: rest) algorithms).state.dials =
      (stringsSplit algorithms ',').map (fun alg =>
        { network := "tcp".toList, addr := host ++ ':' :: port,
          hostKeyAlgorithms := [alg] }) := by
  have hs : splitHostPort (normalizeTarget target) = .ok (host, port) := by
    rw [ht]; exact splitHostPort_plain host port hc hl hr pc pl pr
  obtain ⟨st, hmain, -, -, -, hdials⟩ :=
    main_spec lib w hJson target rest algorithms host port hs
  rw [hmain]
  simp only [hdials]
  apply List.map_congr_left
  intro alg _
  simp [probeRequest]

theorem stringsSplit_ne_nil (s : GoString) (sep : Char) : stringsSplit s sep ≠ [] := by
  induction s with
  | nil => simp [stringsSplit]
  | cons x xs ih =>
    simp only [stringsSplit]
    split
    · simp
    · split <;> simp

theorem probeErrorsFrom_map_snd {Key : Type} (w : World Key) (host port : GoString)
    (algs : List GoString) :
    ∀ n, (probeErrorsFrom w host port n algs).map Prod.snd =
      dialErrors (outcomesFrom w host port n algs) := by
  induction algs with
  | nil => intro n; rfl
  | cons alg rest ih =>
    intro n
    cases ho : w.outcome n (probeRequest host port alg) with
    | keyOffered k => simp [probeErrorsFrom, outcomesFrom, ho, dialErrors, ih]
    | dialError e => simp [probeErrorsFrom, outcomesFrom, ho, dialErrors, ih]
    | dialSuccess => simp [probeErrorsFrom, outcomesFrom, ho, dialErrors, ih]

/-- C6, refuted as stated. The entries of the collected errors carry no
algorithm: the run over `type-A,type-B` and the run over `type-A,type-C`
record the same single entry, two failing probes of different algorithms
record two equal entries, and no function of an entry gives back the
algorithm that failed. -/
theorem collected_errors_untagged_counterexample :
    (main demoLib demoWorld ["example.com:2222".toList]
      "type-A,type-B".toList).state.collectedErrors = [demoErr] ∧
    (main demoLib demoWorld ["example.com:2222".toList]
      "type-A,type-C".toList).state.collectedErrors = [demoErr] ∧
    (main demoLib demoWorld ["example.com:2222".toList]
      "type-B,type-C".toList).state.collectedErrors = [demoErr, demoErr] ∧
    ¬ ∃ tag : GoError → GoString,
      (∀ e ∈ (main demoLib demoWorld ["example.com:2222".toList]
        "type-A,type-B".toList).state.collectedErrors, tag e = "type-B".toList) ∧
      (∀ e ∈ (main demoLib demoWorld ["example.com:2222".toList]
        "type-A,type-C".toList).state.collectedErrors, tag e = "type-C".toList) := by
  have hB : (main demoLib demoWorld ["example.com:2222".toList]
      "type-A,type-B".toList).state.collectedErrors = [demoErr] := rfl
  have hC : (main demoLib demoWorld ["example.com:2222".toList]
      "type-A,type-C".toList).state.collectedErrors = [demoErr] := rfl
  refine ⟨hB, hC, rfl, ?_⟩
  rintro ⟨tag, h1, h2⟩
  rw [hB] at h1
  rw [hC] at h2
  have e1 := h1 demoErr (List.mem_singleton.mpr rfl)
  have e2 := h2 demoErr (List.mem_singleton.mpr rfl)
  rw [e1] at e2
  exact absurd e2 (by decide)

/-- C6, amended. After a run whose target parses, the collected errors are
the ProbeErrors of the failing probes with the algorithm left out: entry
`i` is the bare error returned by the dial of the `i`-th failing probe. -/
theorem collected_errors_are_probe_errors_without_algorithm {Key Cert : Type}
    (lib : SSHLib Key Cert) (w : World Key) (hJson : MarshalTotal lib) (target : GoString)
    (rest : List GoString) (algorithms host port : GoString)
    (hparse : splitHostPort (normalizeTarget target) = .ok (host, port)) :
    (main lib w (target :: rest) algorithms).state.collectedErrors =
      (probeErrorsFrom w host port 0 (stringsSplit algorithms ',')).map Prod.snd := by
  obtain ⟨st, hmain, -, herr, -, -⟩ :=
    main_spec lib w hJson target rest algorithms host port hparse
  rw [hmain, probeErrorsFrom_map_snd]
  exact herr

theorem collected_errors_are_probe_errors_without_algorithm_witness :
    MarshalTotal demoLib ∧
    splitHostPort (normalizeTarget "example.com:2222".toList) =
      .ok ("example.com".toList, "2222".toList) ∧
    (main demoLib demoWorld ["example.com:2222".toList]
        "type-A,type-B".toList).state.collectedErrors =
      (probeErrorsFrom demoWorld "example.com".toList "2222".toList 0
        (stringsSplit "type-A,type-B".toList ',')).map Prod.snd ∧
    probeErrorsFrom demoWorld "example.com".toList "2222".toList 0
        (stringsSplit "type-A,type-B".toList ',') = [("type-B".toList, demoErr)] :=
  ⟨demoLib_marshalTotal, rfl,
    collected_errors_are_probe_errors_without_algorithm demoLib demoWorld
      demoLib_marshalTotal "example.com:2222".toList [] "type-A,type-B".toList
      "example.com".toList "2222".toList rfl, rfl⟩

/-- C8, refuted as stated. The target `[abc]` holds no colon, and the
address dialled is `abc:22`, not `[abc]:22`. -/
theorem default_port_bracketed_counterexample :
    ':' ∉ "[abc]".toList ∧
    (main demoLib demoWorld ["[abc]".toList] "type-A".toList).state.dials.map
      DialRequest.addr = ["abc:22".toList] ∧
    "abc:22".toList ≠ "[abc]".toList ++ ":22".toList :=
  ⟨by decide, rfl, by decide⟩

/-- C8, amended. For a target without a colon that does not begin with
`[`, every dial of the run goes to the target followed by `:22`, and when
the target holds no bracket at all there is one such dial per algorithm;
for a target `host:port` whose host holds no colon and does not begin with
`[`, every dial goes to the target unchanged, and when host and port hold
no colon and no bracket there is one such dial per algorithm. -/
theorem dial_address_default_port {Key Cert : Type} (lib : SSHLib Key Cert)
    (w : World Key) (hJson : MarshalTotal lib) (target : GoString) (rest : List GoString)
    (algorithms : GoString) :
    (':' ∉ target → target.head? ≠ some '[' →
      ∀ d ∈ (main lib w (target :: rest) algorithms).state.dials,
        d.addr = target ++ ":22".toList) ∧
    (':' ∉ target → '[' ∉ target → ']' ∉ target →
      (main lib w (target :: rest) algorithms).state.dials =
        (stringsSplit algorithms ',').map (fun alg =>
          { network := "tcp".toList, addr := target ++ ":22".toList,
            hostKeyAlgorithms := [alg] }) ∧
      (main lib w (target :: rest) algorithms).state.dials ≠ []) ∧
    (∀ host port : GoString, target = host ++ ":".toList ++ port →
      ':' ∉ host → host.head? ≠ some '[' →
      ∀ d ∈ (main lib w (target :: rest) algorithms).state.dials, d.addr = target) ∧
    (∀ host port : GoString, target = host ++ ":".toList ++ port →
      ':' ∉ host → '[' ∉ host → ']' ∉ host → ':' ∉ port → '[' ∉ port → ']' ∉ port →
      (main lib w (target :: rest) algorithms).state.dials =
        (stringsSplit algorithms ',').map (fun alg =>
          { network := "tcp".toList, addr := target, hostKeyAlgorithms := [alg] }) ∧
      (main lib w (target :: rest) algorithms).state.dials ≠ []) := by
  have hne : ∀ f : GoString → DialRequest, (stringsSplit algorithms ',').map f ≠ [] := by
    intro f h
    exact stringsSplit_ne_nil algorithms ',' (List.map_eq_nil_iff.mp h)
  refine ⟨?_, ?_, ?_, ?_⟩
  · intro hc hb d hd
    have hn := normalizeTarget_of_not_mem target hc
    have hb2 : (normalizeTarget target).head? ≠ some '[' := by
      rw [hn]
      cases target with
      | nil => decide
      | cons x xs => simpa using hb
    rw [← hn]
    exact main_dials_addr lib w hJson target rest algorithms hb2 d hd
  · intro hc hl hr
    have hn := normalizeTarget_of_not_mem target hc
    have hd := main_dials_plain lib w hJson target rest algorithms target "22".toList hn
      hc hl hr (by decide) (by decide) (by decide)
    have e : target ++ ':' :: "22".toList = target ++ ":22".toList := rfl
    rw [e] at hd
    exact ⟨hd, hd ▸ hne _⟩
  · intro host port ht hc hb d hd
    have hm : ':' ∈ target := by rw [ht]; simp
    have hn := normalizeTarget_of_mem target hm
    have hb2 : (normalizeTarget target).head? ≠ some '[' := by
      rw [hn, ht]
      cases host with
      | nil => simp
      | cons x xs => simpa using hb
    rw [main_dials_addr lib w hJson target rest algorithms hb2 d hd, hn]
  · intro host port ht hc hl hr pc pl pr
    have hm : ':' ∈ target := by rw [ht]; simp
    have hn := normalizeTarget_of_mem target hm
    have ht2 : target = host ++ ':' :: port := by rw [ht]; simp
    have hd := main_dials_plain lib w hJson target rest algorithms host port
      (hn.trans ht2) hc hl hr pc pl pr
    rw [← ht2] at hd
    exact ⟨hd, hd ▸ hne _⟩

theorem dial_address_default_port_witness :
    MarshalTotal demoLib ∧ ':' ∉ "example.com".toList ∧
    "example.com".toList.head? ≠ some '[' ∧
    (∀ d ∈ (main demoLib demoWorld ["example.com".toList] "type-A,type-B".toList).state.dials,
      d.addr = "example.com".toList ++ ":22".toList) ∧
    (main demoLib demoWorld ["example.com".toList] "type-A,type-B".toList).state.dials.map
      DialRequest.addr = ["example.com:22".toList, "example.com:22".toList] ∧
    (main demoLib demoWorld ["example.com:2222".toList] "type-A,type-B".toList).state.dials.map
      DialRequest.addr = ["example.com:2222".toList, "example.com:2222".toList] :=
  ⟨demoLib_marshalTotal, by decide, by decide,
    (dial_address_default_port demoLib demoWorld demoLib_marshalTotal "example.com".toList []
      "type-A,type-B".toList).1 (by decide) (by decide), rfl, rfl⟩

/-- C10. A target that holds a colon is passed to `net.SplitHostPort` as
it is, without `:22`; so a target with two or more colons that does not
begin with `[` (a bare IPv6 literal such as `::1`) fails with "too many
colons", a target `[body]` whose body holds a colon (a bracketed IPv6
literal without port such as `[::1]`) fails to parse as well, and in both
cases the run ends in the fatal exit of the parse step with no dial made. -/
theorem colon_target_gets_no_default_port {Key Cert : Type} (lib : SSHLib Key Cert)
    (w : World Key) (target : GoString) (rest : List GoString) (algorithms : GoString) :
    (':' ∈ target → normalizeTarget target = target) ∧
    (target.head? ≠ some '[' → 2 ≤ target.count ':' →
      splitHostPort target = .error ⟨tooManyColons, target⟩ ∧
      (main lib w (target :: rest) algorithms).exit =
        .fatalParse target ⟨tooManyColons, target⟩ ∧
      (main lib w (target :: rest) algorithms).state.dials = []) ∧
    (∀ body : GoString, target = '[' :: body ++ [']'] → ':' ∈ body →
      ∃ err, splitHostPort target = .error err ∧
        (main lib w (target :: rest) algorithms).exit = .fatalParse target err ∧
        (main lib w (target :: rest) algorithms).state.dials = []) := by
  refine ⟨normalizeTarget_of_mem target, ?_, ?_⟩
  · intro hb h2
    have hm : ':' ∈ target := List.count_pos_iff.mp (by omega)
    have hn := normalizeTarget_of_mem target hm
    have hs := splitHostPort_bare_colons target hb h2
    have hmain := main_parse_error lib w target rest algorithms ⟨tooManyColons, target⟩
      (by rw [hn]; exact hs)
    rw [hmain, hn]
    exact ⟨hs, rfl, rfl⟩
  · intro body ht hc
    have hm : ':' ∈ target := by rw [ht]; simp [hc]
    have hn := normalizeTarget_of_mem target hm
    obtain ⟨err, hs⟩ := splitHostPort_bracketed_no_port body hc
    rw [← ht] at hs
    have hmain := main_parse_error lib w target rest algorithms err (by rw [hn]; exact hs)
    rw [hmain, hn]
    exact ⟨err, hs, rfl, rfl⟩

theorem colon_target_gets_no_default_port_witness :
    (main demoLib demoWorld ["::1".toList] "type-A".toList).exit =
      .fatalParse "::1".toList ⟨tooManyColons, "::1".toList⟩ ∧
    (main demoLib demoWorld ["[::1]".toList] "type-A".toList).exit =
      .fatalParse "[::1]".toList ⟨missingPort, "[::1]".toList⟩ ∧
    (main demoLib demoWorld ["[::1]".toList] "type-A".toList).state.dials = [] ∧
    (splitHostPort "::1".toList = .error ⟨tooManyColons, "::1".toList⟩ ∧
      (main demoLib demoWorld ["::1".toList] "type-A".toList).exit =
        .fatalParse "::1".toList ⟨tooManyColons, "::1".toList⟩ ∧
      (main demoLib demoWorld ["::1".toList] "type-A".toList).state.dials = []) :=
  ⟨rfl, rfl, rfl,
    (colon_target_gets_no_default_port demoLib demoWorld "::1".toList []
      "type-A".toList).2.1 (by decide) (by decide)⟩

end FetchSSH
